import Mathlib

/-!
Verification of the Ranking Analytics Engine of the Dashboard backend.

The repository's tabular data is embedded shallowly: rows of the three
Excel tables become Lean structures, pandas column operations become list
operations, and float arithmetic is modelled with exact rationals.
Python `round(x, n)` (which rounds half to even) is modelled as
round-half-up scaled by `10^n`; the two agree except at exact half-ulp
ties, which none of the verified properties touch.  Python exceptions
are modelled as the `Except` monad over the spec's error taxonomy.
-/

/-- Error taxonomy of the spec (section 7); `indexError` stands for the raw
`IndexError` a pandas `iloc[0]` on an empty frame raises. -/
inductive Err where
  | dataUnavailable
  | schemaError
  | emptyDataset
  | categoryNotFound
  | competitorNotFound
  | indexError
deriving DecidableEq

/-- Python `round(x, 2)` on the rational model. -/
def round2 (x : ℚ) : ℚ := (round (x * 100) : ℤ) / 100

/-- Python `round(x, 1)` on the rational model. -/
def round1 (x : ℚ) : ℚ := (round (x * 10) : ℤ) / 10

/-- Python `round(x, 4)` on the rational model. -/
def round4 (x : ℚ) : ℚ := (round (x * 10000) : ℤ) / 10000

/-- Python `int(x)` applied to a float: truncation toward zero. -/
def pyTrunc (x : ℚ) : ℤ := if 0 ≤ x then ⌊x⌋ else ⌈x⌉

/-- Python `str.lower` (the data at hand is ASCII). -/
def lowerStr (s : String) : String := ⟨s.data.map Char.toLower⟩

/-- pandas `Series.unique`: distinct values in order of first appearance.
`seen` accumulates the values already emitted. -/
def uniqueAux {α : Type} [DecidableEq α] (seen : List α) : List α → List α
  | [] => []
  | a :: l => if a ∈ seen then uniqueAux seen l else a :: uniqueAux (a :: seen) l

/-- pandas `Series.unique` over a column given as a list. -/
def uniqueFirst {α : Type} [DecidableEq α] (l : List α) : List α := uniqueAux [] l

theorem mem_uniqueAux {α : Type} [DecidableEq α] (x : α) :
    ∀ (l seen : List α), x ∈ uniqueAux seen l ↔ x ∈ l ∧ x ∉ seen := by
  intro l
  induction l with
  | nil => intro seen; simp [uniqueAux]
  | cons a l ih =>
    intro seen
    by_cases h : a ∈ seen
    · rw [uniqueAux, if_pos h, ih]
      constructor
      · rintro ⟨hx, hs⟩; exact ⟨List.mem_cons_of_mem _ hx, hs⟩
      · rintro ⟨hx, hs⟩
        rcases List.mem_cons.mp hx with rfl | hx
        · exact absurd h hs
        · exact ⟨hx, hs⟩
    · rw [uniqueAux, if_neg h]
      constructor
      · intro hx
        rcases List.mem_cons.mp hx with rfl | hx
        · exact ⟨List.mem_cons_self _ _, h⟩
        · rcases (ih (a :: seen)).mp hx with ⟨hl, hs⟩
          exact ⟨List.mem_cons_of_mem _ hl, fun hm => hs (List.mem_cons_of_mem _ hm)⟩
      · rintro ⟨hx, hs⟩
        rcases List.mem_cons.mp hx with rfl | hx
        · exact List.mem_cons_self _ _
        · by_cases hxa : x = a
          · subst hxa; exact List.mem_cons_self _ _
          · exact List.mem_cons_of_mem _ ((ih (a :: seen)).mpr
              ⟨hx, fun hm => by
                rcases List.mem_cons.mp hm with h1 | h1
                · exact hxa h1
                · exact hs h1⟩)

theorem mem_uniqueFirst {α : Type} [DecidableEq α] (x : α) (l : List α) :
    x ∈ uniqueFirst l ↔ x ∈ l := by
  rw [uniqueFirst, mem_uniqueAux]
  simp

theorem nodup_uniqueAux {α : Type} [DecidableEq α] :
    ∀ (l seen : List α), (uniqueAux seen l).Nodup := by
  intro l
  induction l with
  | nil => intro seen; simp [uniqueAux]
  | cons a l ih =>
    intro seen
    by_cases h : a ∈ seen
    · rw [uniqueAux, if_pos h]; exact ih seen
    · rw [uniqueAux, if_neg h]
      refine List.nodup_cons.mpr ⟨fun hm => ?_, ih (a :: seen)⟩
      exact ((mem_uniqueAux a l (a :: seen)).mp hm).2 (List.mem_cons_self _ _)

theorem nodup_uniqueFirst {α : Type} [DecidableEq α] (l : List α) :
    (uniqueFirst l).Nodup := nodup_uniqueAux l []

/-!
The ranking script (`app/data/rank.py`).  It sorts the score table by
(Product ascending, score_norm descending, score_sum descending,
source_normalized ascending) and then assigns within each Product group
`rank = cumcount + 1`.  `sort_values` is an unstable sort on that
four-part key; insertion sort realizes one admissible output order, and
every property proved below is independent of how rows that are equal on
the whole key are arranged among themselves.
-/

/-- A row of the score table `rank.py` reads (before ranks exist):
columns Product, source_normalized, score_norm, score_sum. -/
structure ScoreRow where
  product : String
  source : String
  score : ℚ
  scoreSum : ℚ
deriving DecidableEq

/-- The sort key of `rank.py`'s `sort_values` call: Product ascending, then
score_norm descending, then score_sum descending, then source ascending
(descending columns are negated so the whole key is ascending lexicographic). -/
def rowKey (r : ScoreRow) : String ×ₗ (ℚ ×ₗ (ℚ ×ₗ String)) :=
  toLex (r.product, toLex (-r.score, toLex (-r.scoreSum, r.source)))

/-- Row comparison used by the sort. -/
def keyRel (a b : ScoreRow) : Prop := rowKey a ≤ rowKey b

instance keyRelDecidable : DecidableRel keyRel :=
  fun a b => inferInstanceAs (Decidable (rowKey a ≤ rowKey b))

instance keyRelTotal : IsTotal ScoreRow keyRel :=
  ⟨fun a b => le_total (rowKey a) (rowKey b)⟩

instance keyRelTrans : IsTrans ScoreRow keyRel :=
  ⟨fun _ _ _ h h2 => le_trans h h2⟩

/-- `df.sort_values(by=[Product, score_norm, score_sum, source_normalized],
ascending=[True, False, False, True])`. -/
def sortRows (rows : List ScoreRow) : List ScoreRow := List.insertionSort keyRel rows

/-- A ranked row: `df_sorted['rank'] = df_sorted.groupby('Product').cumcount() + 1`. -/
structure RankedEntry where
  row : ScoreRow
  rank : ℕ
deriving DecidableEq

/-- The rows of one category in the ranked output, in rank order: the
`groupby('Product').cumcount() + 1` of a row equals its position among the
rows of its Product in the sorted frame, plus one. -/
def rankedCategory (rows : List ScoreRow) (c : String) : List RankedEntry :=
  (((sortRows rows).filter (fun r => r.product == c)).enum).map (fun p => ⟨p.2, p.1 + 1⟩)

/-- The tie-break order of the spec: score descending, then score_sum
descending, then source name ascending. -/
def tieOrder (a b : ScoreRow) : Prop :=
  b.score < a.score ∨
    (a.score = b.score ∧
      (b.scoreSum < a.scoreSum ∨ (a.scoreSum = b.scoreSum ∧ a.source ≤ b.source)))

theorem key_to_tie {a b : ScoreRow} (hp : a.product = b.product) (h : keyRel a b) :
    tieOrder a b := by
  unfold keyRel rowKey at h
  rw [Prod.Lex.le_iff] at h
  rcases h with h | ⟨-, h⟩
  · exact absurd (hp ▸ h) (lt_irrefl _)
  · rw [Prod.Lex.le_iff] at h
    rcases h with h | ⟨he, h⟩
    · exact Or.inl (neg_lt_neg_iff.mp h)
    · have hs : a.score = b.score := neg_inj.mp he
      rw [Prod.Lex.le_iff] at h
      rcases h with h | ⟨he2, h⟩
      · exact Or.inr ⟨hs, Or.inl (neg_lt_neg_iff.mp h)⟩
      · exact Or.inr ⟨hs, Or.inr ⟨neg_inj.mp he2, h⟩⟩

theorem enumFrom_map_succ_fst {α : Type} :
    ∀ (l : List α) (n : ℕ),
      (List.enumFrom n l).map (fun p => p.1 + 1) = List.range' (n + 1) l.length := by
  intro l
  induction l with
  | nil => intro n; rfl
  | cons a l ih => intro n; simp [List.enumFrom, List.range', ih]

/-- C1. Within every category of the ranked output, the assigned ranks are
exactly the dense sequence `1..k` where `k` is the number of that category's
rows in the input table; the entries, read in rank order, are weakly sorted by
score descending with ties broken by score_sum descending and then source name
ascending; and the ranked entries carry exactly the category's input rows. -/
theorem rank_dense_and_sorted (rows : List ScoreRow) (c : String) :
    (rankedCategory rows c).map RankedEntry.rank
        = List.range' 1 ((rows.filter (fun r => r.product == c)).length)
      ∧ (rankedCategory rows c).Pairwise (fun a b => tieOrder a.row b.row)
      ∧ List.Perm ((rankedCategory rows c).map RankedEntry.row)
          (rows.filter (fun r => r.product == c)) := by
  have hperm : List.Perm ((sortRows rows).filter (fun r => r.product == c))
      (rows.filter (fun r => r.product == c)) :=
    (List.perm_insertionSort keyRel rows).filter _
  have hrowmap : (rankedCategory rows c).map RankedEntry.row
      = (sortRows rows).filter (fun r => r.product == c) := by
    unfold rankedCategory
    rw [List.map_map]
    exact List.enum_map_snd _
  refine ⟨?_, ?_, ?_⟩
  · unfold rankedCategory
    rw [List.map_map]
    have h1 : (RankedEntry.rank ∘ fun p : ℕ × ScoreRow => RankedEntry.mk p.2 (p.1 + 1))
        = fun p : ℕ × ScoreRow => p.1 + 1 := rfl
    rw [h1, List.enum, enumFrom_map_succ_fst, hperm.length_eq]
  · have hs : ((sortRows rows).filter (fun r => r.product == c)).Pairwise keyRel :=
      List.Pairwise.sublist (List.filter_sublist _) (List.sorted_insertionSort keyRel rows)
    have htie : ((sortRows rows).filter (fun r => r.product == c)).Pairwise tieOrder := by
      refine hs.imp_of_mem ?_
      intro a b ha hb hab
      have hpa : a.product = c := by
        have := (List.mem_filter.mp ha).2
        exact beq_iff_eq.mp this
      have hpb : b.product = c := by
        have := (List.mem_filter.mp hb).2
        exact beq_iff_eq.mp this
      exact key_to_tie (hpa.trans hpb.symm) hab
    have h2 : List.Pairwise (fun p q : ℕ × ScoreRow => tieOrder p.2 q.2)
        ((sortRows rows).filter (fun r => r.product == c)).enum := by
      rw [← List.pairwise_map (f := (Prod.snd : ℕ × ScoreRow → ScoreRow)) (R := tieOrder),
        List.enum_map_snd]
      exact htie
    unfold rankedCategory
    rw [List.pairwise_map]
    exact h2
  · rw [hrowmap]
    exact hperm

/-!
The loaded Ranking Table (`load_ranking_data` returns rows with columns
Product, source_normalized, score_norm, score_sum, rank) and the helpers
every insights function shares.
-/

/-- A row of the loaded Ranking Table. -/
structure RankRow where
  product : String
  source : String
  score : ℚ
  scoreSum : ℚ
  rank : ℤ
deriving DecidableEq

/-- The focal-source test `df['source_normalized'].str.lower() == 'amazon'`. -/
def isAmazonB (r : RankRow) : Bool := lowerStr r.source == "amazon"

/-- `df[df['Product'] == category]`. -/
def catRows (rows : List RankRow) (c : String) : List RankRow :=
  rows.filter (fun r => r.product == c)

/-- Relation used by `cat_data.sort_values('rank')`. -/
def rankLe (a b : RankRow) : Prop := a.rank ≤ b.rank

instance rankLeDecidable : DecidableRel rankLe :=
  fun a b => inferInstanceAs (Decidable (a.rank ≤ b.rank))

instance rankLeTotal : IsTotal RankRow rankLe := ⟨fun a b => Int.le_total a.rank b.rank⟩

instance rankLeTrans : IsTrans RankRow rankLe := ⟨fun _ _ _ => Int.le_trans⟩

/-- `cat_data.sort_values('rank')` (an unstable sort in pandas; insertion sort
realizes one admissible order, and no verified property depends on the
arrangement of rows with equal rank). -/
def sortByRank (l : List RankRow) : List RankRow := List.insertionSort rankLe l

/-- `winner = cat_data.sort_values('rank').iloc[0]`, when the category has rows. -/
def winnerRow (rows : List RankRow) (c : String) : Option RankRow :=
  (sortByRank (catRows rows c)).head?

/-- The focal row `amazon_data.iloc[0]` taken from the rank-sorted category
slice, when the focal source has a row there. -/
def amazonRow (rows : List RankRow) (c : String) : Option RankRow :=
  ((sortByRank (catRows rows c)).filter isAmazonB).head?

/-- `df['Product'].nunique()`. -/
def totalCategoriesOf (rows : List RankRow) : ℕ :=
  (uniqueFirst (rows.map (fun r => r.product))).length

/-- Output record of `calculate_overview_metrics`. -/
structure Overview where
  visibilityScore : ℚ
  marketLeadershipScore : ℚ
  averageRanking : ℚ
  opportunityGap : ℚ
  totalCategories : ℕ
  categoriesRank1 : ℕ
  categoriesNotRank1 : ℤ
deriving DecidableEq

/-- `calculate_overview_metrics` (insights_service).  The division by
`total_categories` raises when that count is zero; the spec files this under
`EmptyDatasetError`.  The pandas mean of an empty rank column is `NaN`;
that case is modelled by the rational convention `x / 0 = 0` and is outside
every property proved here. -/
def calculateOverviewMetrics (rows : List RankRow) : Except Err Overview :=
  let totalCategories := totalCategoriesOf rows
  let amazonData := rows.filter isAmazonB
  if totalCategories = 0 then .error .emptyDataset
  else
    let amazonCategories := (uniqueFirst (amazonData.map (fun r => r.product))).length
    let visibilityScore : ℚ := (amazonCategories : ℚ) / (totalCategories : ℚ) * 100
    let categoriesRank1 := (amazonData.filter (fun r => r.rank == 1)).length
    let marketLeadershipScore : ℚ := (categoriesRank1 : ℚ) / (totalCategories : ℚ) * 100
    let averageRanking : ℚ := ((amazonData.map (fun r => r.rank)).sum : ℚ) / (amazonData.length : ℚ)
    .ok { visibilityScore := round2 visibilityScore,
          marketLeadershipScore := round2 marketLeadershipScore,
          averageRanking := round2 averageRanking,
          opportunityGap := round2 (100 - marketLeadershipScore),
          totalCategories := totalCategories,
          categoriesRank1 := categoriesRank1,
          categoriesNotRank1 := (totalCategories : ℤ) - (categoriesRank1 : ℤ) }

/-- C2. With zero distinct categories, `calculate_overview_metrics` fails with
the `EmptyDatasetError` kind instead of dividing by zero; every non-empty
Ranking Table makes it return a result. -/
theorem overview_empty_dataset (rows : List RankRow) :
    (totalCategoriesOf rows = 0 → calculateOverviewMetrics rows = .error .emptyDataset)
      ∧ (rows ≠ [] → ∃ m, calculateOverviewMetrics rows = .ok m) := by
  constructor
  · intro h
    unfold calculateOverviewMetrics
    rw [if_pos h]
  · intro h
    have hne : totalCategoriesOf rows ≠ 0 := by
      match rows, h with
      | r :: rest, _ =>
        have hm : r.product ∈ uniqueFirst ((r :: rest).map (fun r => r.product)) :=
          (mem_uniqueFirst _ _).mpr (List.mem_map_of_mem _ (List.mem_cons_self _ _))
        have := List.length_pos.mpr (List.ne_nil_of_mem hm)
        unfold totalCategoriesOf
        omega
    simp only [calculateOverviewMetrics, if_neg hne]
    exact ⟨_, rfl⟩

/-!
`categorize_by_priority` (insights_service): for every category where the
focal source is present with rank above 1 it computes a gap, a priority
score and a severity, appends the item to exactly one of three buckets,
and finally sorts each bucket by descending gap percentage.
-/

inductive Severity where
  | critical
  | medium
  | low
deriving DecidableEq

/-- One priority item as `categorize_by_priority` builds it. -/
structure PriorityItem where
  category : String
  currentRank : ℤ
  gapPercentage : ℚ
  competitor : String
  competitorScore : ℚ
  amazonScore : ℚ
  priorityScore : ℚ
deriving DecidableEq

/-- `gap_percentage = (winner['score_norm'] - amazon_score) * 100`. -/
def gapPct (w a : RankRow) : ℚ := (w.score - a.score) * 100

/-- The `category_data` dict of `categorize_by_priority`. -/
def priorityItemFor (c : String) (w a : RankRow) : PriorityItem :=
  { category := c, currentRank := a.rank,
    gapPercentage := round2 (gapPct w a),
    competitor := w.source, competitorScore := w.score, amazonScore := a.score,
    priorityScore := round2 (min 100 (gapPct w a * 2 + ((a.rank : ℚ) - 1) * 10)) }

/-- The severity cascade `gap >= 15 / gap >= 7 / else`. -/
def severityFor (g : ℚ) : Severity :=
  if 15 ≤ g then .critical else if 7 ≤ g then .medium else .low

/-- What one loop iteration of `categorize_by_priority` does with category `c`:
`none` when the focal source is absent or already rank 1, otherwise the item
together with the bucket it is appended to. -/
def processCategory (rows : List RankRow) (c : String) : Option (PriorityItem × Severity) :=
  match winnerRow rows c, amazonRow rows c with
  | some w, some a =>
      if 1 < a.rank then some (priorityItemFor c w a, severityFor (gapPct w a)) else none
  | _, _ => none

/-- The items the loop puts into the bucket of severity `s`, in category order. -/
def selFor (rows : List RankRow) (s : Severity) (c : String) : Option PriorityItem :=
  match processCategory rows c with
  | some (it, sv) => if sv = s then some it else none
  | none => none

/-- Relation of `sorted(..., key=lambda x: -x['gap_percentage'])`. -/
def gapDesc (a b : PriorityItem) : Prop := b.gapPercentage ≤ a.gapPercentage

instance gapDescDecidable : DecidableRel gapDesc :=
  fun a b => inferInstanceAs (Decidable (b.gapPercentage ≤ a.gapPercentage))

instance gapDescTotal : IsTotal PriorityItem gapDesc :=
  ⟨fun a b => (le_total a.gapPercentage b.gapPercentage).symm⟩

instance gapDescTrans : IsTrans PriorityItem gapDesc :=
  ⟨fun _ _ _ h h2 => le_trans h2 h⟩

/-- Python `sorted` is stable, as is insertion sort. -/
def sortGapDesc (l : List PriorityItem) : List PriorityItem := List.insertionSort gapDesc l

/-- Result of `categorize_by_priority`. -/
structure PriorityBuckets where
  critical : List PriorityItem
  medium : List PriorityItem
  low : List PriorityItem
deriving DecidableEq

/-- `categorize_by_priority`. -/
def categorizeByPriority (rows : List RankRow) : PriorityBuckets :=
  let cats := uniqueFirst (rows.map (fun r => r.product))
  { critical := sortGapDesc (cats.filterMap (selFor rows .critical)),
    medium := sortGapDesc (cats.filterMap (selFor rows .medium)),
    low := sortGapDesc (cats.filterMap (selFor rows .low)) }

/-- Eligibility of a category: the focal source has a row there and its
first row in rank order has rank above 1. -/
def eligB (rows : List RankRow) (c : String) : Bool :=
  match amazonRow rows c with
  | some a => decide (1 < a.rank)
  | none => false

theorem winner_isSome_of_amazon {rows : List RankRow} {c : String} {a : RankRow}
    (h : amazonRow rows c = some a) : ∃ w, winnerRow rows c = some w := by
  unfold amazonRow at h
  unfold winnerRow
  cases hs : sortByRank (catRows rows c) with
  | nil => rw [hs] at h; simp at h
  | cons x t => exact ⟨x, rfl⟩

theorem amazonRow_mem {rows : List RankRow} {c : String} {a : RankRow}
    (h : amazonRow rows c = some a) : a ∈ rows ∧ a.product = c := by
  unfold amazonRow at h
  have hmem : a ∈ (sortByRank (catRows rows c)).filter isAmazonB := by
    cases hl : (sortByRank (catRows rows c)).filter isAmazonB with
    | nil => rw [hl] at h; simp at h
    | cons x t =>
      rw [hl] at h
      have hx : x = a := by injection h
      rw [← hx]; exact List.mem_cons_self _ _
  have h2 : a ∈ sortByRank (catRows rows c) := (List.mem_filter.mp hmem).1
  have h3 : a ∈ catRows rows c := ((List.perm_insertionSort rankLe _).mem_iff).mp h2
  exact ⟨(List.mem_filter.mp h3).1, beq_iff_eq.mp (List.mem_filter.mp h3).2⟩

theorem processCategory_isSome (rows : List RankRow) (c : String) :
    (processCategory rows c).isSome = eligB rows c := by
  unfold processCategory eligB
  cases ha : amazonRow rows c with
  | none => cases hw : winnerRow rows c <;> simp
  | some a =>
    obtain ⟨w, hw⟩ := winner_isSome_of_amazon ha
    rw [hw]
    by_cases hr : 1 < a.rank <;> simp [hr]

theorem selFor_eq_none {rows : List RankRow} {c : String}
    (h : processCategory rows c = none) (s : Severity) : selFor rows s c = none := by
  unfold selFor
  rw [h]

theorem selFor_eq_some {rows : List RankRow} {c : String} {it : PriorityItem} {sv : Severity}
    (h : processCategory rows c = some (it, sv)) (s : Severity) :
    selFor rows s c = if sv = s then some it else none := by
  unfold selFor
  rw [h]

theorem processCategory_category {rows : List RankRow} {c : String}
    {it : PriorityItem} {sv : Severity}
    (h : processCategory rows c = some (it, sv)) : it.category = c := by
  unfold processCategory at h
  cases hw : winnerRow rows c with
  | none =>
    rw [hw] at h
    cases ha : amazonRow rows c <;> rw [ha] at h <;> simp at h
  | some w =>
    rw [hw] at h
    cases ha : amazonRow rows c with
    | none => rw [ha] at h; simp at h
    | some a =>
      rw [ha] at h
      dsimp only at h
      by_cases hr : 1 < a.rank
      · rw [if_pos hr] at h
        have h2 := Option.some.inj h
        have h3 : priorityItemFor c w a = it := congrArg Prod.fst h2
        rw [← h3]
        rfl
      · rw [if_neg hr] at h
        simp at h

theorem selFor_union_perm (rows : List RankRow) :
    ∀ L : List String,
      List.Perm
        (((L.filterMap (selFor rows .critical)).map PriorityItem.category)
          ++ ((L.filterMap (selFor rows .medium)).map PriorityItem.category)
          ++ ((L.filterMap (selFor rows .low)).map PriorityItem.category))
        (L.filter (eligB rows)) := by
  intro L
  induction L with
  | nil => simp
  | cons c L ih =>
    cases hp : processCategory rows c with
    | none =>
      have he : eligB rows c = false := by
        have h0 := processCategory_isSome rows c
        rw [hp] at h0
        exact h0.symm.trans rfl
      rw [List.filterMap_cons_none (selFor_eq_none hp .critical),
        List.filterMap_cons_none (selFor_eq_none hp .medium),
        List.filterMap_cons_none (selFor_eq_none hp .low),
        List.filter_cons_of_neg (by rw [he]; exact Bool.false_ne_true)]
      exact ih
    | some pr =>
      obtain ⟨it, sv⟩ := pr
      have hcat : it.category = c := processCategory_category hp
      have he : eligB rows c = true := by
        have h0 := processCategory_isSome rows c
        rw [hp] at h0
        exact h0.symm.trans rfl
      rw [List.filter_cons_of_pos he]
      cases sv with
      | critical =>
        rw [List.filterMap_cons_some (by rw [selFor_eq_some hp .critical]; rfl),
          List.filterMap_cons_none (by rw [selFor_eq_some hp .medium]; rfl),
          List.filterMap_cons_none (by rw [selFor_eq_some hp .low]; rfl),
          List.map_cons, hcat]
        exact ih.cons c
      | medium =>
        rw [List.filterMap_cons_none (by rw [selFor_eq_some hp .critical]; rfl),
          List.filterMap_cons_some (by rw [selFor_eq_some hp .medium]; rfl),
          List.filterMap_cons_none (by rw [selFor_eq_some hp .low]; rfl),
          List.map_cons, hcat]
        have h1 : ((L.filterMap (selFor rows .critical)).map PriorityItem.category)
              ++ (c :: (L.filterMap (selFor rows .medium)).map PriorityItem.category)
              ++ ((L.filterMap (selFor rows .low)).map PriorityItem.category)
            = ((L.filterMap (selFor rows .critical)).map PriorityItem.category)
              ++ c :: (((L.filterMap (selFor rows .medium)).map PriorityItem.category)
                ++ ((L.filterMap (selFor rows .low)).map PriorityItem.category)) := by
          simp
        rw [h1]
        refine List.Perm.trans List.perm_middle ?_
        refine List.Perm.cons c ?_
        rw [← List.append_assoc]
        exact ih
      | low =>
        rw [List.filterMap_cons_none (by rw [selFor_eq_some hp .critical]; rfl),
          List.filterMap_cons_none (by rw [selFor_eq_some hp .medium]; rfl),
          List.filterMap_cons_some (by rw [selFor_eq_some hp .low]; rfl),
          List.map_cons, hcat]
        exact List.Perm.trans List.perm_middle (List.Perm.cons c ih)

/-- C3. The three buckets of `categorize_by_priority` carry pairwise disjoint
category sets whose union is exactly the set of eligible categories: those in
which the focal source is present with rank above 1. -/
theorem priority_buckets_partition (rows : List RankRow) :
    List.Perm
      (((categorizeByPriority rows).critical.map PriorityItem.category)
        ++ ((categorizeByPriority rows).medium.map PriorityItem.category)
        ++ ((categorizeByPriority rows).low.map PriorityItem.category))
      ((uniqueFirst (rows.map (fun r => r.product))).filter (eligB rows))
    ∧ List.Disjoint ((categorizeByPriority rows).critical.map PriorityItem.category)
        ((categorizeByPriority rows).medium.map PriorityItem.category)
    ∧ List.Disjoint ((categorizeByPriority rows).critical.map PriorityItem.category)
        ((categorizeByPriority rows).low.map PriorityItem.category)
    ∧ List.Disjoint ((categorizeByPriority rows).medium.map PriorityItem.category)
        ((categorizeByPriority rows).low.map PriorityItem.category) := by
  have hc : List.Perm ((categorizeByPriority rows).critical.map PriorityItem.category)
      (((uniqueFirst (rows.map (fun r => r.product))).filterMap
        (selFor rows .critical)).map PriorityItem.category) :=
    (List.perm_insertionSort gapDesc _).map _
  have hm : List.Perm ((categorizeByPriority rows).medium.map PriorityItem.category)
      (((uniqueFirst (rows.map (fun r => r.product))).filterMap
        (selFor rows .medium)).map PriorityItem.category) :=
    (List.perm_insertionSort gapDesc _).map _
  have hl : List.Perm ((categorizeByPriority rows).low.map PriorityItem.category)
      (((uniqueFirst (rows.map (fun r => r.product))).filterMap
        (selFor rows .low)).map PriorityItem.category) :=
    (List.perm_insertionSort gapDesc _).map _
  have hU : List.Perm
      (((categorizeByPriority rows).critical.map PriorityItem.category)
        ++ ((categorizeByPriority rows).medium.map PriorityItem.category)
        ++ ((categorizeByPriority rows).low.map PriorityItem.category))
      ((uniqueFirst (rows.map (fun r => r.product))).filter (eligB rows)) :=
    ((hc.append hm).append hl).trans
      (selFor_union_perm rows (uniqueFirst (rows.map (fun r => r.product))))
  have hE : ((uniqueFirst (rows.map (fun r => r.product))).filter (eligB rows)).Nodup :=
    (nodup_uniqueFirst _).filter _
  have hN := hU.nodup_iff.mpr hE
  rw [List.nodup_append] at hN
  obtain ⟨hN1, -, hN3⟩ := hN
  rw [List.nodup_append] at hN1
  rw [List.disjoint_append_left] at hN3
  exact ⟨hU, hN1.2.2, hN3.1, hN3.2⟩

theorem item_mem_bucket {rows : List RankRow} {c : String}
    {it : PriorityItem} {sv : Severity}
    (hp : processCategory rows c = some (it, sv))
    (hc : c ∈ uniqueFirst (rows.map (fun r => r.product))) :
    it ∈ sortGapDesc ((uniqueFirst (rows.map (fun r => r.product))).filterMap
      (selFor rows sv)) := by
  refine ((List.perm_insertionSort gapDesc _).mem_iff).mpr ?_
  refine List.mem_filterMap.mpr ⟨c, hc, ?_⟩
  rw [selFor_eq_some hp sv, if_pos rfl]

/-- C4. For every eligible category, `categorize_by_priority` computes
`gap_percentage = (winner.score - focal.score) * 100`, a priority score of
`min(100, 2 * gap + 10 * (focal.rank - 1))`, and appends the item to the
Critical bucket when `gap >= 15`, to Medium when `7 <= gap < 15`, and to Low
when `gap < 7`. -/
theorem priority_item_formula (rows : List RankRow) (c : String) (w a : RankRow)
    (hw : winnerRow rows c = some w) (ha : amazonRow rows c = some a)
    (hr : 1 < a.rank) :
    processCategory rows c = some (priorityItemFor c w a, severityFor (gapPct w a))
      ∧ (priorityItemFor c w a).gapPercentage = round2 ((w.score - a.score) * 100)
      ∧ (priorityItemFor c w a).priorityScore
          = round2 (min 100 ((w.score - a.score) * 100 * 2 + ((a.rank : ℚ) - 1) * 10))
      ∧ (15 ≤ gapPct w a → priorityItemFor c w a ∈ (categorizeByPriority rows).critical)
      ∧ (7 ≤ gapPct w a ∧ gapPct w a < 15 →
          priorityItemFor c w a ∈ (categorizeByPriority rows).medium)
      ∧ (gapPct w a < 7 → priorityItemFor c w a ∈ (categorizeByPriority rows).low) := by
  have hp : processCategory rows c = some (priorityItemFor c w a, severityFor (gapPct w a)) := by
    unfold processCategory
    rw [hw, ha]
    dsimp only
    rw [if_pos hr]
  have hcm : c ∈ uniqueFirst (rows.map (fun r => r.product)) := by
    obtain ⟨hmem, hprod⟩ := amazonRow_mem ha
    exact (mem_uniqueFirst _ _).mpr (hprod ▸ List.mem_map_of_mem _ hmem)
  refine ⟨hp, rfl, rfl, ?_, ?_, ?_⟩
  · intro hg
    have hsev : severityFor (gapPct w a) = .critical := by
      unfold severityFor
      rw [if_pos hg]
    rw [hsev] at hp
    exact item_mem_bucket hp hcm
  · rintro ⟨hg1, hg2⟩
    have hsev : severityFor (gapPct w a) = .medium := by
      unfold severityFor
      rw [if_neg (not_le.mpr hg2), if_pos hg1]
    rw [hsev] at hp
    exact item_mem_bucket hp hcm
  · intro hg
    have hsev : severityFor (gapPct w a) = .low := by
      unfold severityFor
      rw [if_neg (not_le.mpr (lt_of_lt_of_le hg (by norm_num))),
        if_neg (not_le.mpr hg)]
    rw [hsev] at hp
    exact item_mem_bucket hp hcm

/-- The spec's "Toys" scenario table: (amazon, rank 2, score 0.40) and
(flipkart, rank 1, score 0.50). -/
def toysTable : List RankRow :=
  [ { product := "Toys", source := "flipkart", score := 1/2, scoreSum := 0, rank := 1 },
    { product := "Toys", source := "amazon", score := 2/5, scoreSum := 0, rank := 2 } ]

theorem round2_eval {x : ℚ} {z : ℤ} (h : x * 100 = (z : ℚ)) :
    round2 x = (z : ℚ) / 100 := by
  rw [round2, h, round_intCast]

theorem round1_eval {x : ℚ} {z : ℤ} (h : x * 10 = (z : ℚ)) :
    round1 x = (z : ℚ) / 10 := by
  rw [round1, h, round_intCast]

theorem round4_eval {x : ℚ} {z : ℤ} (h : x * 10000 = (z : ℚ)) :
    round4 x = (z : ℚ) / 10000 := by
  rw [round4, h, round_intCast]

theorem priority_item_formula_witness :
    priorityItemFor "Toys"
        { product := "Toys", source := "flipkart", score := 1/2, scoreSum := 0, rank := 1 }
        { product := "Toys", source := "amazon", score := 2/5, scoreSum := 0, rank := 2 }
      ∈ (categorizeByPriority toysTable).medium
    ∧ (priorityItemFor "Toys"
        { product := "Toys", source := "flipkart", score := 1/2, scoreSum := 0, rank := 1 }
        { product := "Toys", source := "amazon", score := 2/5, scoreSum := 0, rank := 2 }).priorityScore
      = 30 := by
  have h := priority_item_formula toysTable "Toys"
    { product := "Toys", source := "flipkart", score := 1/2, scoreSum := 0, rank := 1 }
    { product := "Toys", source := "amazon", score := 2/5, scoreSum := 0, rank := 2 }
    rfl rfl (by decide)
  refine ⟨h.2.2.2.2.1 ⟨by norm_num [gapPct], by norm_num [gapPct]⟩, ?_⟩
  simp only [priorityItemFor]
  rw [round2_eval (z := 3000) (by norm_num [gapPct, min_def])]
  norm_num

/-!
`generate_category_heatmap` (insights_service): one row per category that
contains the focal source, over categories in ascending name order.
-/

/-- Output row of `generate_category_heatmap`. -/
structure HeatRow where
  category : String
  amazonRank : ℤ
  amazonScore : ℚ
  gapToFirst : ℚ
  competitorName : String
  statusColor : String
deriving DecidableEq

/-- The color cascade on the focal rank. -/
def statusColor (rank : ℤ) : String :=
  if rank = 1 then "green"
  else if rank ≤ 3 then "yellow"
  else if rank ≤ 5 then "orange"
  else "red"

/-- The heatmap entry of one category, when the focal source is present. -/
def heatmapRowOpt (rows : List RankRow) (c : String) : Option HeatRow :=
  match winnerRow rows c, amazonRow rows c with
  | some w, some a =>
      some { category := c, amazonRank := a.rank, amazonScore := round4 a.score,
             gapToFirst := round4 (if 1 < a.rank then w.score - a.score else 0),
             competitorName := if 1 < a.rank then w.source else "Amazon",
             statusColor := statusColor a.rank }
  | _, _ => none

/-- `sorted(df['Product'].unique())`. -/
def sortedCategories (rows : List RankRow) : List String :=
  List.insertionSort (fun a b : String => a ≤ b) (uniqueFirst (rows.map (fun r => r.product)))

/-- `generate_category_heatmap`. -/
def generateCategoryHeatmap (rows : List RankRow) : List HeatRow :=
  (sortedCategories rows).filterMap (heatmapRowOpt rows)

theorem winnerRow_mem {rows : List RankRow} {c : String} {w : RankRow}
    (h : winnerRow rows c = some w) : w ∈ rows ∧ w.product = c := by
  unfold winnerRow at h
  have hmem : w ∈ sortByRank (catRows rows c) := by
    cases hl : sortByRank (catRows rows c) with
    | nil => rw [hl] at h; simp at h
    | cons x t =>
      rw [hl] at h
      have hx : x = w := by injection h
      rw [← hx]; exact List.mem_cons_self _ _
  have h3 : w ∈ catRows rows c := ((List.perm_insertionSort rankLe _).mem_iff).mp hmem
  exact ⟨(List.mem_filter.mp h3).1, beq_iff_eq.mp (List.mem_filter.mp h3).2⟩

theorem winner_rank_le {rows : List RankRow} {c : String} {w : RankRow}
    (hw : winnerRow rows c = some w) :
    ∀ r ∈ catRows rows c, w.rank ≤ r.rank := by
  intro r hr
  unfold winnerRow at hw
  have hsorted : List.Sorted rankLe (sortByRank (catRows rows c)) :=
    List.sorted_insertionSort rankLe _
  have hrs : r ∈ sortByRank (catRows rows c) :=
    ((List.perm_insertionSort rankLe _).mem_iff).mpr hr
  cases hs : sortByRank (catRows rows c) with
  | nil => rw [hs] at hrs; simp at hrs
  | cons x t =>
    rw [hs] at hw
    have hx : x = w := by injection hw
    rw [hs] at hrs hsorted
    subst hx
    rcases List.mem_cons.mp hrs with rfl | hrt
    · exact le_refl _
    · exact List.rel_of_sorted_cons hsorted r hrt

theorem round4_nonneg {x : ℚ} (h : 0 ≤ x) : 0 ≤ round4 x := by
  unfold round4
  have h1 : (0 : ℤ) ≤ round (x * 10000) := by
    rw [round_eq]
    refine Int.le_floor.mpr ?_
    push_cast
    linarith
  have h2 : (0 : ℚ) ≤ (round (x * 10000) : ℚ) := by exact_mod_cast h1
  positivity

/-- C6. For every category where the focal source has a row, the heatmap row
computes `gap_to_first` as `winner.score - focal.score` when the focal rank
exceeds 1 and as 0 otherwise, and under the rank invariant (rank ascends as
score descends and the category has a rank-1 row) that gap is never
negative; the row is an entry of the generated heatmap. -/
theorem heatmap_gap_formula (rows : List RankRow) (c : String) (w a : RankRow)
    (hw : winnerRow rows c = some w) (ha : amazonRow rows c = some a)
    (hmono : ∀ x ∈ rows, ∀ y ∈ rows,
      x.product = y.product → x.rank < y.rank → y.score ≤ x.score)
    (hone : ∃ r ∈ catRows rows c, r.rank = 1) :
    heatmapRowOpt rows c = some
      { category := c, amazonRank := a.rank, amazonScore := round4 a.score,
        gapToFirst := round4 (if 1 < a.rank then w.score - a.score else 0),
        competitorName := if 1 < a.rank then w.source else "Amazon",
        statusColor := statusColor a.rank }
    ∧ 0 ≤ round4 (if 1 < a.rank then w.score - a.score else 0)
    ∧ { category := c, amazonRank := a.rank, amazonScore := round4 a.score,
        gapToFirst := round4 (if 1 < a.rank then w.score - a.score else 0),
        competitorName := if 1 < a.rank then w.source else "Amazon",
        statusColor := statusColor a.rank } ∈ generateCategoryHeatmap rows := by
  have hrow : heatmapRowOpt rows c = some
      { category := c, amazonRank := a.rank, amazonScore := round4 a.score,
        gapToFirst := round4 (if 1 < a.rank then w.score - a.score else 0),
        competitorName := if 1 < a.rank then w.source else "Amazon",
        statusColor := statusColor a.rank } := by
    unfold heatmapRowOpt
    rw [hw, ha]
  have hnn : 0 ≤ round4 (if 1 < a.rank then w.score - a.score else 0) := by
    by_cases hr1 : 1 < a.rank
    · rw [if_pos hr1]
      obtain ⟨r1, hr1mem, hr1rank⟩ := hone
      have hwle : w.rank ≤ 1 := by
        have := winner_rank_le hw r1 hr1mem
        omega
      have hlt : w.rank < a.rank := by omega
      obtain ⟨hwmem, hwprod⟩ := winnerRow_mem hw
      obtain ⟨hamem, haprod⟩ := amazonRow_mem ha
      have hscore : a.score ≤ w.score :=
        hmono w hwmem a hamem (hwprod.trans haprod.symm) hlt
      exact round4_nonneg (by linarith)
    · rw [if_neg hr1]
      simp [round4]
  refine ⟨hrow, hnn, ?_⟩
  have hcm : c ∈ sortedCategories rows := by
    obtain ⟨hamem, haprod⟩ := amazonRow_mem ha
    refine ((List.perm_insertionSort _ _).mem_iff).mpr ?_
    exact (mem_uniqueFirst _ _).mpr (haprod ▸ List.mem_map_of_mem _ hamem)
  exact List.mem_filterMap.mpr ⟨c, hcm, hrow⟩

theorem heatmap_gap_formula_witness :
    heatmapRowOpt toysTable "Toys" = some
      { category := "Toys", amazonRank := 2, amazonScore := round4 (2/5),
        gapToFirst := round4 ((1/2 : ℚ) - 2/5), competitorName := "flipkart",
        statusColor := "yellow" }
    ∧ (0 : ℚ) ≤ round4 ((1/2 : ℚ) - 2/5)
    ∧ { category := "Toys", amazonRank := 2, amazonScore := round4 (2/5),
        gapToFirst := round4 ((1/2 : ℚ) - 2/5), competitorName := "flipkart",
        statusColor := "yellow" } ∈ generateCategoryHeatmap toysTable := by
  have h := heatmap_gap_formula toysTable "Toys"
    { product := "Toys", source := "flipkart", score := 1/2, scoreSum := 0, rank := 1 }
    { product := "Toys", source := "amazon", score := 2/5, scoreSum := 0, rank := 2 }
    rfl rfl
    (by
      simp only [toysTable, List.forall_mem_cons, List.forall_mem_nil]
      norm_num)
    (by decide)
  exact h

/-!
`predict_rank_movement` (additional_service).  Branch A handles a category
with no focal-source row (new-entrant forecast), Branch B a category where
the focal source is ranked.  The category slice is not re-sorted here, so
"first" rows are taken in table order, exactly as `iloc[0]` does.
-/

/-- Branch A predicted score: `min(1.0, 0.03 * products + 0.02 * citations)`. -/
def predictedScoreA (p cn : ℤ) : ℚ := min 1 ((p : ℚ) * (3/100) + (cn : ℚ) * (2/100))

/-- Branch B predicted score:
`min(1.0, current + 0.02 * products + 0.01 * citations)`. -/
def predictedScoreB (cs : ℚ) (p cn : ℤ) : ℚ :=
  min 1 (cs + (p : ℚ) * (2/100) + (cn : ℚ) * (1/100))

/-- Output record of `predict_rank_movement`. -/
structure Prediction where
  category : String
  currentRank : ℤ
  predictedRank : ℤ
  gapReduction : ℚ
  citationsNeeded : ℤ
  estimatedTimelineMonths : ℤ
  revenueImpactMonthly : ℤ
  investmentRequired : ℤ
  roiMultiplier : ℚ
deriving DecidableEq

/-- Branch A (focal source absent from the category). -/
def branchA (catData : List RankRow) (category : String) (p cn : ℤ) : Prediction :=
  let rank1Score : ℚ :=
    match (catData.filter (fun r => r.rank == 1)).head? with
    | some r => r.score
    | none => 1
  let currentRank : ℤ := (catData.length : ℤ) + 1
  let predictedScore := predictedScoreA p cn
  let betterThan : ℤ :=
    ((catData.filter (fun r => decide (r.score < predictedScore))).length : ℤ)
  let predictedRank : ℤ :=
    max 1 (min ((catData.length : ℤ) - betterThan + 1) (catData.length : ℤ))
  let investment : ℤ := p * 2000 + cn * 5000
  let revenue : ℤ := p * 5000 + (currentRank - predictedRank) * 10000
  { category := category, currentRank := currentRank, predictedRank := predictedRank,
    gapReduction := round1 ((rank1Score - predictedScore) * 100),
    citationsNeeded := cn,
    estimatedTimelineMonths := max 6 (pyTrunc ((p : ℚ) / 2 + (cn : ℚ) / (3/2))),
    revenueImpactMonthly := revenue,
    investmentRequired := investment,
    roiMultiplier := round2 (if 0 < investment then ((revenue : ℚ) * 12) / (investment : ℚ) else 0) }

/-- Branch B (focal source present; `a` is its first row in table order and
`r1` the first rank-1 row). -/
def branchB (catData : List RankRow) (category : String) (a r1 : RankRow) (p cn : ℤ) :
    Prediction :=
  let currentRank : ℤ := a.rank
  let currentScore : ℚ := a.score
  let rank1Score : ℚ := r1.score
  let predictedScore := predictedScoreB currentScore p cn
  let predictedRank : ℤ :=
    max 1 (currentRank - pyTrunc ((predictedScore - currentScore) / (5/100)))
  let investment : ℤ := p * 2000 + cn * 5000
  let revenue : ℤ := p * 8000 + (currentRank - predictedRank) * 15000
  { category := category, currentRank := currentRank, predictedRank := predictedRank,
    gapReduction := round1 ((rank1Score - predictedScore) * 100),
    citationsNeeded := cn,
    estimatedTimelineMonths := max 3 (pyTrunc ((p : ℚ) / 3 + (cn : ℚ) / 2)),
    revenueImpactMonthly := revenue,
    investmentRequired := investment,
    roiMultiplier := round2 (if 0 < investment then ((revenue : ℚ) * 12) / (investment : ℚ) else 0) }

/-- `predict_rank_movement`.  An empty category slice raises the
category-not-found error; Branch B's `iloc[0]` on the rank-1 slice raises a
raw index error when no rank-1 row exists. -/
def predictRankMovement (rows : List RankRow) (category : String) (p cn : ℤ) :
    Except Err Prediction :=
  let catData := catRows rows category
  if catData = [] then .error .categoryNotFound
  else
    match (catData.filter isAmazonB).head? with
    | none => .ok (branchA catData category p cn)
    | some a =>
      match (catData.filter (fun r => r.rank == 1)).head? with
      | none => .error .indexError
      | some r1 => .ok (branchB catData category a r1 p cn)

/-- C5. When the category exists but has no focal-source row,
`predict_rank_movement` runs the new-entrant branch: current rank is the row
count plus one, the predicted score is `min(1, 0.03p + 0.02c)`, the predicted
rank is the row count minus the number of rows scoring below the predicted
score plus one, clamped to `[1, row count]`, and the required investment is
`2000p + 5000c`. -/
theorem predict_branchA (rows : List RankRow) (category : String) (p cn : ℤ)
    (hne : catRows rows category ≠ [])
    (habs : (catRows rows category).filter isAmazonB = []) :
    predictRankMovement rows category p cn
        = .ok (branchA (catRows rows category) category p cn)
    ∧ predictedScoreA p cn = min 1 ((p : ℚ) * (3/100) + (cn : ℚ) * (2/100))
    ∧ (branchA (catRows rows category) category p cn).currentRank
        = ((catRows rows category).length : ℤ) + 1
    ∧ (branchA (catRows rows category) category p cn).predictedRank
        = max 1 (min (((catRows rows category).length : ℤ)
            - (((catRows rows category).filter
                (fun r => decide (r.score < predictedScoreA p cn))).length : ℤ) + 1)
            ((catRows rows category).length : ℤ))
    ∧ (branchA (catRows rows category) category p cn).investmentRequired
        = p * 2000 + cn * 5000 := by
  refine ⟨?_, rfl, rfl, rfl, rfl⟩
  simp only [predictRankMovement]
  rw [if_neg hne, habs]
  rfl

/-- The spec's "Gadgets" scenario table: three ranked rows, none of them the
focal source. -/
def gadgetsTable : List RankRow :=
  [ { product := "Gadgets", source := "flipkart", score := 1/2, scoreSum := 0, rank := 1 },
    { product := "Gadgets", source := "meesho", score := 3/10, scoreSum := 0, rank := 2 },
    { product := "Gadgets", source := "snapdeal", score := 1/5, scoreSum := 0, rank := 3 } ]

theorem predict_branchA_witness :
    predictedScoreA 5 10 = 7/20
    ∧ predictRankMovement gadgetsTable "Gadgets" 5 10
        = .ok (branchA (catRows gadgetsTable "Gadgets") "Gadgets" 5 10)
    ∧ (branchA (catRows gadgetsTable "Gadgets") "Gadgets" 5 10).investmentRequired = 60000
    ∧ (branchA (catRows gadgetsTable "Gadgets") "Gadgets" 5 10).currentRank = 4 := by
  have h := predict_branchA gadgetsTable "Gadgets" 5 10
    (List.length_pos.mp (by decide)) rfl
  exact ⟨by norm_num [predictedScoreA, min_def], h.1, by decide, by decide⟩

/-- C10. In Branch B with non-negative inputs, the forecast never worsens the
focal position: the predicted score is at least the current score (given the
data-model bound `score <= 1`), and the predicted rank is at least 1 and at
most the current rank (given the data-model bound `rank >= 1`). -/
theorem predict_branchB_monotone (rows : List RankRow) (category : String) (p cn : ℤ)
    (a r1 : RankRow)
    (hp : 0 ≤ p) (hcn : 0 ≤ cn)
    (ha : ((catRows rows category).filter isAmazonB).head? = some a)
    (hr1 : ((catRows rows category).filter (fun r => r.rank == 1)).head? = some r1)
    (hs : a.score ≤ 1) (hrk : 1 ≤ a.rank) :
    predictRankMovement rows category p cn
        = .ok (branchB (catRows rows category) category a r1 p cn)
    ∧ a.score ≤ predictedScoreB a.score p cn
    ∧ (branchB (catRows rows category) category a r1 p cn).predictedRank
        ≤ (branchB (catRows rows category) category a r1 p cn).currentRank
    ∧ 1 ≤ (branchB (catRows rows category) category a r1 p cn).predictedRank := by
  have hne : catRows rows category ≠ [] := by
    intro hc
    rw [hc] at ha
    simp at ha
  have hpq : (0 : ℚ) ≤ (p : ℚ) := by exact_mod_cast hp
  have hcnq : (0 : ℚ) ≤ (cn : ℚ) := by exact_mod_cast hcn
  have hboost1 : (0 : ℚ) ≤ (p : ℚ) * (2/100) := by positivity
  have hboost2 : (0 : ℚ) ≤ (cn : ℚ) * (1/100) := by positivity
  have hps : a.score ≤ predictedScoreB a.score p cn :=
    le_min hs (by linarith)
  have htr : (0 : ℤ) ≤ pyTrunc ((predictedScoreB a.score p cn - a.score) / (5/100)) := by
    have harg : (0 : ℚ) ≤ (predictedScoreB a.score p cn - a.score) / (5/100) := by
      apply div_nonneg
      · linarith
      · norm_num
    rw [pyTrunc, if_pos harg]
    refine Int.le_floor.mpr ?_
    push_cast
    linarith
  refine ⟨?_, hps, ?_, ?_⟩
  · simp only [predictRankMovement]
    rw [if_neg hne, ha]
    dsimp only
    rw [hr1]
  · show max 1 (a.rank - pyTrunc ((predictedScoreB a.score p cn - a.score) / (5/100))) ≤ a.rank
    exact max_le hrk (by omega)
  · show 1 ≤ max 1 (a.rank - pyTrunc ((predictedScoreB a.score p cn - a.score) / (5/100)))
    exact le_max_left _ _

theorem predict_branchB_monotone_witness :
    predictRankMovement toysTable "Toys" 1 1
        = .ok (branchB (catRows toysTable "Toys") "Toys"
            { product := "Toys", source := "amazon", score := 2/5, scoreSum := 0, rank := 2 }
            { product := "Toys", source := "flipkart", score := 1/2, scoreSum := 0, rank := 1 }
            1 1)
    ∧ (2/5 : ℚ) ≤ predictedScoreB (2/5) 1 1
    ∧ (branchB (catRows toysTable "Toys") "Toys"
          { product := "Toys", source := "amazon", score := 2/5, scoreSum := 0, rank := 2 }
          { product := "Toys", source := "flipkart", score := 1/2, scoreSum := 0, rank := 1 }
          1 1).predictedRank
        ≤ (branchB (catRows toysTable "Toys") "Toys"
            { product := "Toys", source := "amazon", score := 2/5, scoreSum := 0, rank := 2 }
            { product := "Toys", source := "flipkart", score := 1/2, scoreSum := 0, rank := 1 }
            1 1).currentRank
    ∧ 1 ≤ (branchB (catRows toysTable "Toys") "Toys"
          { product := "Toys", source := "amazon", score := 2/5, scoreSum := 0, rank := 2 }
          { product := "Toys", source := "flipkart", score := 1/2, scoreSum := 0, rank := 1 }
          1 1).predictedRank := by
  exact predict_branchB_monotone toysTable "Toys" 1 1
    { product := "Toys", source := "amazon", score := 2/5, scoreSum := 0, rank := 2 }
    { product := "Toys", source := "flipkart", score := 1/2, scoreSum := 0, rank := 1 }
    (by decide) (by decide) rfl rfl (by norm_num) (by decide)

/-!
`extract_domains_from_citations` (additional_service): the regex
`https?://([^\s/\]]+)` captured per match, then Python
`str.replace('www.', '')`, which removes every occurrence of `"www."`,
not only a leading one.  The scanners below are written with explicit
fuel (always called with more fuel than characters, so it never runs
out) to keep them kernel-computable.
-/

/-- Python regex `\s`. -/
def isPySpace (c : Char) : Bool :=
  c == ' ' || c == '\t' || c == '\n' || c == '\r' || c == '\x0b' || c == '\x0c'

/-- A character the capture group `[^\s/\]]+` accepts. -/
def isHostChar (c : Char) : Bool := !(c == '/' || c == ']' || isPySpace c)

/-- Left-to-right, non-overlapping scan for `https?://` matches; each match
captures the maximal run of host characters after the scheme (at least one,
as `+` demands), and scanning resumes after the capture. -/
def findHostsFuel : ℕ → List Char → List (List Char)
  | 0, _ => []
  | _ + 1, [] => []
  | fuel + 1, c :: rest =>
    if (c :: rest).take 8 = "https://".toList then
      let after := (c :: rest).drop 8
      let host := after.takeWhile isHostChar
      if host = [] then findHostsFuel fuel rest
      else host :: findHostsFuel fuel (after.drop host.length)
    else if (c :: rest).take 7 = "http://".toList then
      let after := (c :: rest).drop 7
      let host := after.takeWhile isHostChar
      if host = [] then findHostsFuel fuel rest
      else host :: findHostsFuel fuel (after.drop host.length)
    else findHostsFuel fuel rest

/-- `re.findall(r'https?://([^\s/\]]+)', text)`. -/
def findHosts (l : List Char) : List (List Char) := findHostsFuel (l.length + 1) l

/-- Python `str.replace('www.', '')`: removes every left-to-right
non-overlapping occurrence of `"www."`. -/
def removeWww : List Char → List Char
  | [] => []
  | 'w' :: 'w' :: 'w' :: '.' :: rest => removeWww rest
  | c :: rest => c :: removeWww rest

/-- Domains of one citation text block. -/
def extractDomains (text : String) : List String :=
  (findHosts text.toList).map (fun h => String.mk (removeWww h))

/-- `extract_domains_from_citations` over the non-null citation cells. -/
def extractDomainsFromCitations (citations : List String) : List String :=
  (citations.map extractDomains).flatten

/-- C7 counterexample. On a host with an inner `"www."` the code removes it:
`extract_domains` maps `https://shop.www.example.com/x` to
`shop.example.com`, not to the claim's `shop.www.example.com`. -/
theorem extractDomains_strips_inner_www :
    extractDomains "[1]: https://shop.www.example.com/x" = ["shop.example.com"]
    ∧ (["shop.example.com"] : List String) ≠ ["shop.www.example.com"] :=
  ⟨by decide, by decide⟩

/-- C7 (amended). `extract_domains` returns one hostname per
`scheme://host/...` match with every `"www."` occurrence removed (Python
`str.replace` semantics), in particular stripping a leading `"www."`; on the
spec's scenario text it returns `["example.com", "example.com"]`, so the
domain `example.com` has frequency 2. -/
theorem extractDomains_spec :
    (∀ l : List Char, removeWww ('w' :: 'w' :: 'w' :: '.' :: l) = removeWww l)
    ∧ extractDomains "[1]: https://www.example.com/x [2]: http://example.com/y"
        = ["example.com", "example.com"]
    ∧ (extractDomains "[1]: https://www.example.com/x [2]: http://example.com/y").count
        "example.com" = 2
    ∧ extractDomainsFromCitations
        ["[1]: https://www.example.com/x [2]: http://example.com/y"]
        = ["example.com", "example.com"] :=
  ⟨fun _ => rfl, by decide, by decide, by decide⟩

/-!
`calculate_trust_signals` (additional_service): per marketplace taken from
the first 15 distinct sources of the Product-Detail Table, the lower-cased
`extra` texts are joined with spaces and scanned for fixed keyword lists
with Python `str.count` (left-to-right, non-overlapping substring count).
-/

/-- A row of the Product-Detail Table. -/
structure DetailRow where
  product : String
  productName : String
  source : String
  extra : String
deriving DecidableEq

def positiveKeywords : List String :=
  ["genuine", "authentic", "verified", "trusted", "excellent", "fast delivery", "quality"]

def negativeKeywords : List String :=
  ["fake", "counterfeit", "delayed", "poor quality", "scam", "fraud"]

/-- Python `text.count(pat)`: non-overlapping occurrences, scanning left to
right (fuel exceeds the text length, so it never runs out). -/
def countOccFuel (pat : List Char) : ℕ → List Char → ℕ
  | 0, _ => 0
  | _ + 1, [] => 0
  | fuel + 1, c :: rest =>
    if (c :: rest).take pat.length = pat then
      1 + countOccFuel pat fuel ((c :: rest).drop pat.length)
    else countOccFuel pat fuel rest

def countOcc (pat text : List Char) : ℕ := countOccFuel pat (text.length + 1) text

/-- `' '.join(mp_data['extra'].astype(str).str.lower())`. -/
def allTextFor (details : List DetailRow) (mp : String) : List Char :=
  List.intercalate [' ']
    ((details.filter (fun r => r.source == mp)).map (fun r => (lowerStr r.extra).data))

/-- The keywords found with their counts, keeping keyword-list order and
dropping keywords that do not occur. -/
def keywordCounts (ks : List String) (t : List Char) : List (String × ℕ) :=
  ks.filterMap (fun k =>
    let c := countOcc k.toList t
    if 0 < c then some (k, c) else none)

def posTotal (details : List DetailRow) (mp : String) : ℕ :=
  ((keywordCounts positiveKeywords (allTextFor details mp)).map (fun kv => kv.2)).sum

def negTotal (details : List DetailRow) (mp : String) : ℕ :=
  ((keywordCounts negativeKeywords (allTextFor details mp)).map (fun kv => kv.2)).sum

/-- Output record of `calculate_trust_signals` (signal lists truncated to 5
for display; the totals are taken before truncation). -/
structure TrustSignal where
  marketplace : String
  positiveSignals : List (String × ℕ)
  negativeSignals : List (String × ℕ)
  trustScore : ℚ
  totalMentions : ℕ
deriving DecidableEq

def trustSignalFor (details : List DetailRow) (mp : String) : TrustSignal :=
  let t := allTextFor details mp
  let pos := keywordCounts positiveKeywords t
  let neg := keywordCounts negativeKeywords t
  let tp : ℕ := (pos.map (fun kv => kv.2)).sum
  let tn : ℕ := (neg.map (fun kv => kv.2)).sum
  { marketplace := mp,
    positiveSignals := pos.take 5,
    negativeSignals := neg.take 5,
    trustScore := if 0 < tp + tn then round1 ((tp : ℚ) / ((tp : ℚ) + (tn : ℚ)) * 100) else 50,
    totalMentions := tp + tn }

/-- Relation of `trust_signals.sort(key=lambda x: -x['trust_score'])`. -/
def trustDesc (a b : TrustSignal) : Prop := b.trustScore ≤ a.trustScore

instance trustDescDecidable : DecidableRel trustDesc :=
  fun a b => inferInstanceAs (Decidable (b.trustScore ≤ a.trustScore))

instance trustDescTotal : IsTotal TrustSignal trustDesc :=
  ⟨fun a b => (le_total a.trustScore b.trustScore).symm⟩

instance trustDescTrans : IsTrans TrustSignal trustDesc :=
  ⟨fun _ _ _ h h2 => le_trans h2 h⟩

/-- `calculate_trust_signals`: note the `[:15]` truncation of
`df_details['source_normalized'].unique()`. -/
def calculateTrustSignals (details : List DetailRow) : List TrustSignal :=
  List.insertionSort trustDesc
    (((uniqueFirst (details.map (fun r => r.source))).take 15).map (trustSignalFor details))

theorem trustSignals_marketplaces_perm (details : List DetailRow) :
    List.Perm ((calculateTrustSignals details).map TrustSignal.marketplace)
      ((uniqueFirst (details.map (fun r => r.source))).take 15) := by
  have h1 := (List.perm_insertionSort trustDesc
    (((uniqueFirst (details.map (fun r => r.source))).take 15).map
      (trustSignalFor details))).map TrustSignal.marketplace
  refine h1.trans ?_
  rw [List.map_map]
  have h2 : (TrustSignal.marketplace ∘ trustSignalFor details) = id :=
    funext fun mp => rfl
  rw [h2, List.map_id]

/-- The spec's trust-signal scenario: one row whose extra text contains
"genuine" twice and no negative keyword. -/
def genuineTable : List DetailRow :=
  [ { product := "Toys", productName := "Teddy", source := "amazon",
      extra := "Genuine product from a genuine seller" } ]

/-- Sixteen rows with sixteen distinct sources: one more than the `[:15]`
cut of `calculate_trust_signals` keeps. -/
def sixteenSources : List DetailRow :=
  [ ⟨"c", "p", "s01", ""⟩, ⟨"c", "p", "s02", ""⟩, ⟨"c", "p", "s03", ""⟩,
    ⟨"c", "p", "s04", ""⟩, ⟨"c", "p", "s05", ""⟩, ⟨"c", "p", "s06", ""⟩,
    ⟨"c", "p", "s07", ""⟩, ⟨"c", "p", "s08", ""⟩, ⟨"c", "p", "s09", ""⟩,
    ⟨"c", "p", "s10", ""⟩, ⟨"c", "p", "s11", ""⟩, ⟨"c", "p", "s12", ""⟩,
    ⟨"c", "p", "s13", ""⟩, ⟨"c", "p", "s14", ""⟩, ⟨"c", "p", "s15", ""⟩,
    ⟨"c", "p", "s16", ""⟩ ]

/-- C8 counterexample. With sixteen distinct sources the result has only 15
entries and the sixteenth source gets none, so `trust_signals` does not
produce one entry for every source of the table. -/
theorem trust_signals_misses_a_source :
    (calculateTrustSignals sixteenSources).length = 15
    ∧ "s16" ∈ sixteenSources.map DetailRow.source
    ∧ "s16" ∉ (calculateTrustSignals sixteenSources).map TrustSignal.marketplace := by
  have hperm := trustSignals_marketplaces_perm sixteenSources
  refine ⟨?_, by decide, ?_⟩
  · have hlen := hperm.length_eq
    rw [List.length_map] at hlen
    rw [hlen]
    decide
  · intro hmem
    have h2 := hperm.mem_iff.mp hmem
    revert h2
    decide

/-- C8 (amended). `trust_signals` produces one entry for each of the first 15
distinct sources of the Product-Detail Table (in first-appearance order), not
for every source; each entry scans the concatenated lower-cased extra text
with substring counting against the fixed keyword lists and scores
`100 * positive / (positive + negative)` with neutral default 50 when both
totals are zero; the result is sorted by descending trust score.  On the
scenario row whose text contains "genuine" twice and nothing negative the
entry scores 100.0 with 2 total mentions. -/
theorem trust_signals_spec (details : List DetailRow) :
    List.Perm ((calculateTrustSignals details).map TrustSignal.marketplace)
      ((uniqueFirst (details.map (fun r => r.source))).take 15)
    ∧ (calculateTrustSignals details).Pairwise trustDesc
    ∧ (∀ e ∈ calculateTrustSignals details,
        e = trustSignalFor details e.marketplace
        ∧ e.totalMentions = posTotal details e.marketplace + negTotal details e.marketplace
        ∧ e.trustScore =
            (if 0 < posTotal details e.marketplace + negTotal details e.marketplace
             then round1 ((posTotal details e.marketplace : ℚ)
               / ((posTotal details e.marketplace : ℚ)
                   + (negTotal details e.marketplace : ℚ)) * 100)
             else 50))
    ∧ (trustSignalFor genuineTable "amazon").trustScore = 100
    ∧ (trustSignalFor genuineTable "amazon").totalMentions = 2
    ∧ trustSignalFor genuineTable "amazon" ∈ calculateTrustSignals genuineTable := by
  refine ⟨trustSignals_marketplaces_perm details, ?_, ?_, ?_, by decide, ?_⟩
  · exact List.sorted_insertionSort trustDesc _
  · intro e he
    have he2 : e ∈ ((uniqueFirst (details.map (fun r => r.source))).take 15).map
        (trustSignalFor details) :=
      ((List.perm_insertionSort trustDesc _).mem_iff).mp he
    obtain ⟨mp, -, heq⟩ := List.mem_map.mp he2
    subst heq
    exact ⟨rfl, rfl, rfl⟩
  · have htp : posTotal genuineTable "amazon" = 2 := by decide
    have htn : negTotal genuineTable "amazon" = 0 := by decide
    have hts : (trustSignalFor genuineTable "amazon").trustScore
        = (if 0 < posTotal genuineTable "amazon" + negTotal genuineTable "amazon"
           then round1 ((posTotal genuineTable "amazon" : ℚ)
             / ((posTotal genuineTable "amazon" : ℚ)
                 + (negTotal genuineTable "amazon" : ℚ)) * 100)
           else 50) := rfl
    rw [hts, htp, htn]
    norm_num
    rw [round1_eval (z := 1000) (by push_cast; norm_num)]
    norm_num
  · refine ((List.perm_insertionSort trustDesc _).mem_iff).mpr ?_
    exact List.mem_map.mpr ⟨"amazon", by decide, rfl⟩

/-!
`load_ranking_data` (analytics): reads the configured Excel location,
fails when the file is missing, validates the required columns, and
returns the frame.  The file system is modelled as an explicit state the
loader reads and returns unchanged; "an unchanged source" between two
calls is the same state value.
-/

/-- The Excel source: its header row and its typed rows. -/
structure RankingFile where
  columns : List String
  rows : List RankRow

/-- The external state the loader reads: the configured ranking-file
location, holding a file or nothing. -/
structure World where
  rankingFile : Option RankingFile

def requiredRankingColumns : List String := ["Product", "source_normalized", "rank"]

/-- `load_ranking_data`: missing file raises the data-unavailable kind, a
missing required column the schema kind; reading leaves the world unchanged. -/
def loadRankingData (w : World) : Except Err (List RankRow) × World :=
  match w.rankingFile with
  | none => (.error .dataUnavailable, w)
  | some f =>
    if (requiredRankingColumns.filter (fun c => !(f.columns.contains c))).isEmpty
    then (.ok f.rows, w)
    else (.error .schemaError, w)

/-- Two sequential loads against the same source: the second runs in the
state the first returned. -/
def loadTwice (w : World) : Except Err (List RankRow) × Except Err (List RankRow) :=
  let r1 := loadRankingData w
  let r2 := loadRankingData r1.2
  (r1.1, r2.1)

/-- C9. Loading is idempotent: two sequential loads of an unchanged source
return equal snapshots, and every metric computed from the second load equals
the metric computed from the first. -/
theorem load_ranking_idempotent (w : World) :
    (loadTwice w).1 = (loadTwice w).2
    ∧ ((loadTwice w).1.map calculateOverviewMetrics)
        = ((loadTwice w).2.map calculateOverviewMetrics)
    ∧ ((loadTwice w).1.map categorizeByPriority)
        = ((loadTwice w).2.map categorizeByPriority)
    ∧ ((loadTwice w).1.map generateCategoryHeatmap)
        = ((loadTwice w).2.map generateCategoryHeatmap) := by
  have hworld : ∀ v : World, (loadRankingData v).2 = v := by
    intro v
    unfold loadRankingData
    cases hf : v.rankingFile with
    | none => rfl
    | some f =>
      dsimp only
      split <;> rfl
  have h : (loadTwice w).1 = (loadTwice w).2 := by
    show (loadRankingData w).1 = (loadRankingData (loadRankingData w).2).1
    rw [hworld w]
  exact ⟨h, by rw [h], by rw [h], by rw [h]⟩
